import Mathlib

/-! Verification of the Zeon-hybrid repository against its specification.

This file shallowly embeds the parts of the repository that the claims
C1..C10 are about and proves or refutes each claim.

* The `CrowdFund` Solidity contract (src/unnamed/part_002): state machine
  with `contribute`, `getFundraiserState`, `payout`, `refund`, `receive`.
  uint256 storage arithmetic is modelled as `Nat` with Solidity 0.8
  checked addition (revert on overflow at `2^256`).
* The address / transaction-hash format validators (src/utils/blockchain.ts):
  the JavaScript regexes are embedded via a small backtracking pattern
  matcher `matchP` that covers exactly the constructs those regexes use.
* `parseAmountFromInput` (src/index.ts): the five amount regexes, the
  case-insensitive `usd`/`dollar` containment test, the fixed 2000 USD/ETH
  conversion and `toFixed(6)` formatting.  IEEE doubles are idealized to
  exact rational arithmetic on the captured decimal numerals.
* The chat endpoint handler `handleChatRequest` (src/index.ts) and the
  per-user agent routing `handleMessage` (src/index.ts).
-/

/-! ## CrowdFund contract state (src/unnamed/part_002) -/

/-- Storage of one deployed CrowdFund instance, plus its ETH balance.
Addresses and uint256 values are modelled as `Nat`. -/
structure CFState where
  beneficiary : Nat
  goal : Nat
  deadline : Nat
  totalRaised : Nat
  contributions : Nat → Nat
  contributors : List Nat
  balance : Nat

/-- The contract's `enum State { Ongoing, Succeeded, Failed }`. -/
inductive FundState where
  | Ongoing : FundState
  | Succeeded : FundState
  | Failed : FundState
deriving DecidableEq, Repr

/-- One past `2^256 - 1`, the largest uint256. -/
def UINT256_BOUND : Nat := 2 ^ 256

/-- Solidity 0.8 checked `+`: reverts (`none`) when the sum does not fit
in a uint256. -/
def checkedAdd (a b : Nat) : Option Nat :=
  if a + b < UINT256_BOUND then some (a + b) else none

/-- The constructor: `beneficiary`, `goal`, `deadline = block.timestamp + _duration`;
all other storage starts zeroed and the contract starts with zero balance. -/
def deploy (beneficiary goal duration now : Nat) : CFState :=
  { beneficiary := beneficiary
    goal := goal
    deadline := now + duration
    totalRaised := 0
    contributions := fun _ => 0
    contributors := []
    balance := 0 }

/-- Function `contribute()` called by `sender` with `msg.value = value` at
`block.timestamp = now`.  `none` models a revert (the two `require`s, or a
checked-arithmetic overflow); on success the sent value has been added to
the contract balance. -/
def contribute (sender value now : Nat) (st : CFState) : Option CFState :=
  if value = 0 then none
  else if now < st.deadline then
    let newContributors :=
      if st.contributions sender = 0 then st.contributors ++ [sender]
      else st.contributors
    match checkedAdd (st.contributions sender) value,
          checkedAdd st.totalRaised value with
    | some c, some t =>
        some { st with
          contributors := newContributors
          contributions := fun a => if a = sender then c else st.contributions a
          totalRaised := t
          balance := st.balance + value }
    | _, _ => none
  else none

/-- Function `receive()` forwards a bare transfer to `contribute()`. -/
def receiveEther (sender value now : Nat) (st : CFState) : Option CFState :=
  contribute sender value now st

/-- View `getBalance()`. -/
def getBalance (st : CFState) : Nat := st.balance

/-- View `isFundraiserActive()`. -/
def isFundraiserActive (now : Nat) (st : CFState) : Bool :=
  decide (now < st.deadline)

/-- View `getContributors()`. -/
def getContributors (st : CFState) : List Nat := st.contributors

/-- View `getFundraiserState()` evaluated at `block.timestamp = now`. -/
def getFundraiserState (now : Nat) (st : CFState) : FundState :=
  if now < st.deadline then FundState.Ongoing
  else if st.goal ≤ st.totalRaised then FundState.Succeeded
  else FundState.Failed

/-- Function `payout()` at time `now`; `sendOk` is the success of the low-level call
to the beneficiary.  Returns the amount sent and the post-state, `none` on
revert. -/
def payout (now : Nat) (sendOk : Bool) (st : CFState) : Option (Nat × CFState) :=
  if getFundraiserState now st = FundState.Succeeded then
    let amount := st.balance
    if sendOk then some (amount, { st with balance := st.balance - amount })
    else none
  else none

/-- The checks-and-effects stage of `refund()`: the two `require`s and the
zeroing of the caller's contribution.  Returns the amount to send and the
intermediate state as it stands when the external call is made. -/
def refundEffects (sender now : Nat) (st : CFState) : Option (Nat × CFState) :=
  if getFundraiserState now st = FundState.Failed then
    let amount := st.contributions sender
    if amount = 0 then none
    else
      some (amount,
        { st with contributions := fun a => if a = sender then 0 else st.contributions a })
  else none

/-- Function `refund()`: the effects stage followed by the low-level call to the
caller (`sendOk` its success; on failure the whole transaction reverts). -/
def refund (sender now : Nat) (sendOk : Bool) (st : CFState) : Option (Nat × CFState) :=
  match refundEffects sender now st with
  | none => none
  | some (amount, st1) =>
      if sendOk then some (amount, { st1 with balance := st1.balance - amount })
      else none

/-! ### Transaction sequences over the contract -/

/-- One external transaction against the contract (its timestamp is
supplied separately). -/
inductive CFOp where
  | contributeOp : Nat → Nat → CFOp
  | receiveOp : Nat → Nat → CFOp
  | refundOp : Nat → Bool → CFOp
  | payoutOp : Bool → CFOp

/-- Apply one transaction at timestamp `now`; a reverted transaction
leaves the state unchanged. -/
def stepOp (now : Nat) (op : CFOp) (st : CFState) : CFState :=
  match op with
  | CFOp.contributeOp s v =>
      match contribute s v now st with
      | some st' => st'
      | none => st
  | CFOp.receiveOp s v =>
      match receiveEther s v now st with
      | some st' => st'
      | none => st
  | CFOp.refundOp s ok =>
      match refund s now ok st with
      | some (_, st') => st'
      | none => st
  | CFOp.payoutOp ok =>
      match payout now ok st with
      | some (_, st') => st'
      | none => st

/-- Run a list of timestamped transactions. -/
def execOps (st : CFState) : List (Nat × CFOp) → CFState
  | [] => st
  | (t, op) :: rest => execOps (stepOp t op st) rest

/-- Block timestamps are non-decreasing and start no earlier than `t0`. -/
def timeMono : Nat → List (Nat × CFOp) → Bool
  | _, [] => true
  | t0, (t, _) :: rest => decide (t0 ≤ t) && timeMono t rest

/-- Inductive invariant behind the no-duplicate-contributors property: the
list is duplicate-free, and a recorded contributor whose contribution has
been zeroed (only `refund` does that) certifies that the deadline has
passed. -/
def ContribInv (now : Nat) (st : CFState) : Prop :=
  st.contributors.Nodup ∧
    ∀ a ∈ st.contributors, st.contributions a = 0 → st.deadline ≤ now

/-! ## A small backtracking pattern matcher

The JavaScript code tests inputs against regular expressions.  `Pat`
covers exactly the constructs those regexes use: literals (exact and
case-insensitive), single-character classes, exact repetition of a class
(`{n}`), greedy `*` over a class, `?` groups, alternation and
concatenation.  `matchP` is a continuation-passing matcher with the same
backtracking order as the JavaScript engine: alternatives left to right,
greedy quantifiers longest first. -/

/-- ASCII lowercasing, the fragment of `toLowerCase()` the searched-for
words need. -/
def asciiLower (c : Char) : Char :=
  if 'A' ≤ c ∧ c ≤ 'Z' then Char.ofNat (c.toNat + 32) else c

inductive Pat where
  | eps : Pat
  | cls : (Char → Bool) → Pat
  | lit : List Char → Pat
  | stri : List Char → Pat
  | repn : (Char → Bool) → Nat → Pat
  | star : (Char → Bool) → Pat
  | opt : Pat → Pat
  | alt : Pat → Pat → Pat
  | seq : Pat → Pat → Pat

/-- Strip an exact literal prefix. -/
def stripLit : List Char → List Char → Option (List Char)
  | [], cs => some cs
  | _ :: _, [] => none
  | w :: ws, c :: cs => if c = w then stripLit ws cs else none

/-- Strip a case-insensitive literal prefix (`w` is stored lowercase). -/
def stripStri : List Char → List Char → Option (List Char)
  | [], cs => some cs
  | _ :: _, [] => none
  | w :: ws, c :: cs => if asciiLower c = w then stripStri ws cs else none

/-- Exactly `n` characters of class `p`, then the continuation. -/
def matchRepn {α : Type} (p : Char → Bool) : Nat → List Char → (List Char → Option α) → Option α
  | 0, cs, k => k cs
  | _ + 1, [], _ => none
  | n + 1, c :: cs, k => if p c then matchRepn p n cs k else none

/-- Length of the longest prefix of `p`-characters. -/
def countLeading (p : Char → Bool) : List Char → Nat
  | [] => 0
  | c :: cs => if p c then countLeading p cs + 1 else 0

/-- First success of the continuation over a list of candidate rests. -/
def firstSome {α : Type} (k : List Char → Option α) : List (List Char) → Option α
  | [] => none
  | cs :: rest =>
      match k cs with
      | some a => some a
      | none => firstSome k rest

/-- Candidate rests for greedy `p*`: consume as many `p`-characters as
possible first, backtracking one at a time down to zero. -/
def starSuffixes (p : Char → Bool) (cs : List Char) : List (List Char) :=
  let m := countLeading p cs
  (List.range (m + 1)).map fun i => cs.drop (m - i)

/-- The matcher: `matchP pat cs k` tries to match `pat` at the head of
`cs` and runs `k` on the rest, backtracking until `k` succeeds. -/
def matchP {α : Type} : Pat → List Char → (List Char → Option α) → Option α
  | Pat.eps, cs, k => k cs
  | Pat.cls _, [], _ => none
  | Pat.cls p, c :: cs, k => if p c then k cs else none
  | Pat.lit w, cs, k =>
      match stripLit w cs with
      | some rest => k rest
      | none => none
  | Pat.stri w, cs, k =>
      match stripStri w cs with
      | some rest => k rest
      | none => none
  | Pat.repn p n, cs, k => matchRepn p n cs k
  | Pat.star p, cs, k => firstSome k (starSuffixes p cs)
  | Pat.opt q, cs, k =>
      match matchP q cs k with
      | some a => some a
      | none => k cs
  | Pat.alt a b, cs, k =>
      match matchP a cs k with
      | some r => some r
      | none => matchP b cs k
  | Pat.seq a b, cs, k => matchP a cs fun rest => matchP b rest k

/-! ## The format validators (src/utils/blockchain.ts) -/

/-- The character class `[a-fA-F0-9]`, in the order the regexes write it. -/
def hexClass (c : Char) : Bool :=
  (decide ('a' ≤ c) && decide (c ≤ 'f')) ||
  (decide ('A' ≤ c) && decide (c ≤ 'F')) ||
  (decide ('0' ≤ c) && decide (c ≤ '9'))

/-- Pattern `/^0x[a-fA-F0-9]{40}$/`. -/
def addrPattern : Pat := Pat.seq (Pat.lit "0x".data) (Pat.repn hexClass 40)

/-- Pattern `/^0x[a-fA-F0-9]{64}$/`. -/
def txHashPattern : Pat := Pat.seq (Pat.lit "0x".data) (Pat.repn hexClass 64)

/-- Continuation for a `$` anchor: succeed only at the end of the input. -/
def endAnchor : List Char → Option Unit := fun rest =>
  if rest.isEmpty then some () else none

/-- Evaluation of `re.test(s)` for a fully anchored (`^...$`) pattern. -/
def regexTestFull (p : Pat) (s : String) : Bool :=
  (matchP p s.data endAnchor).isSome

/-- Function `isValidAddress` of src/utils/blockchain.ts. -/
def isValidAddress (s : String) : Bool := regexTestFull addrPattern s

/-- Function `isValidTxHash` of src/utils/blockchain.ts. -/
def isValidTxHash (s : String) : Bool := regexTestFull txHashPattern s

/-- Spec-side notion of a hexadecimal character (digit, `a`-`f`, `A`-`F`). -/
def IsHexChar (c : Char) : Prop :=
  ('0' ≤ c ∧ c ≤ '9') ∨ ('a' ≤ c ∧ c ≤ 'f') ∨ ('A' ≤ c ∧ c ≤ 'F')

instance decIsHexChar (c : Char) : Decidable (IsHexChar c) := by
  unfold IsHexChar
  infer_instance

/-- Spec-side well-formedness: the string is exactly `0x` followed by
exactly `n` hexadecimal characters. -/
def WellFormedHexString (s : String) (n : Nat) : Prop :=
  ∃ t : List Char, s.data = '0' :: 'x' :: t ∧ t.length = n ∧ ∀ c ∈ t, IsHexChar c

/-! ## parseAmountFromInput (src/index.ts)

The function tries five regexes in order, each with one capture group
`(\d+(?:\.\d+)?)`; on the first regex that matches it parses the capture
and, when the lowercased input contains `usd` or `dollar`, converts at a
hard-coded 2000 USD/ETH with `toFixed(6)`.  Each pattern is split here
into the part before the capture (`pre`) and the part after it (`post`);
the capture itself is matched by `capNum`, which mirrors the engine's
greedy digits, optional fraction, and the backtracking that drops the
fraction if the tail cannot match.  `parseFloat` and number formatting
are idealized to exact rational arithmetic on the decimal numeral. -/

/-- The class `\s` (ASCII fragment). -/
def jsWhitespace (c : Char) : Bool :=
  c == ' ' || c == '\t' || c == '\n' || c == '\r' || c == '\x0b' || c == '\x0c'

/-- The class `\d`. -/
def digitClass (c : Char) : Bool := decide ('0' ≤ c) && decide (c ≤ '9')

/-- Pattern `\s*`. -/
def wsStar : Pat := Pat.star jsWhitespace

/-- Pattern `(?:usdc|usd|dollars?)`, case-insensitive. -/
def currencyPat : Pat :=
  Pat.alt (Pat.stri "usdc".data)
    (Pat.alt (Pat.stri "usd".data)
      (Pat.seq (Pat.stri "dollar".data) (Pat.opt (Pat.stri "s".data))))

/-- Pattern `(?:worth|of|in)`, case-insensitive. -/
def worthOfIn : Pat :=
  Pat.alt (Pat.stri "worth".data) (Pat.alt (Pat.stri "of".data) (Pat.stri "in".data))

/-- Pattern `(?:for|worth|of)`, case-insensitive. -/
def forWorthOf : Pat :=
  Pat.alt (Pat.stri "for".data) (Pat.alt (Pat.stri "worth".data) (Pat.stri "of".data))

/-- One of the five regexes, split around its single capture group. -/
structure CapPattern where
  pre : Pat
  post : Pat

/-- Pattern `/(\d+(?:\.\d+)?)\s*(?:usdc|usd|dollars?)\s*(?:worth|of|in)\s*(?:eth)?/i`. -/
def amountPattern1 : CapPattern :=
  ⟨Pat.eps,
    Pat.seq wsStar (Pat.seq currencyPat (Pat.seq wsStar
      (Pat.seq worthOfIn (Pat.seq wsStar (Pat.opt (Pat.stri "eth".data))))))⟩

/-- Pattern `/(\d+(?:\.\d+)?)\s*eth/i`. -/
def amountPattern2 : CapPattern :=
  ⟨Pat.eps, Pat.seq wsStar (Pat.stri "eth".data)⟩

/-- Pattern `/worth\s*(\d+(?:\.\d+)?)\s*(?:usdc|usd|dollars?)/i`. -/
def amountPattern3 : CapPattern :=
  ⟨Pat.seq (Pat.stri "worth".data) wsStar, Pat.seq wsStar currencyPat⟩

/-- Pattern `/fundraiser\s*(?:for|worth|of)\s*(\d+(?:\.\d+)?)\s*(?:usdc|usd|dollars?)/i`. -/
def amountPattern4 : CapPattern :=
  ⟨Pat.seq (Pat.stri "fundraiser".data) (Pat.seq wsStar (Pat.seq forWorthOf wsStar)),
    Pat.seq wsStar currencyPat⟩

/-- Pattern `/(\d+(?:\.\d+)?)\s*(?:usdc|usd|dollars?)/i`. -/
def amountPattern5 : CapPattern :=
  ⟨Pat.eps, Pat.seq wsStar currencyPat⟩

/-- Longest prefix of digits and the rest. -/
def spanDigits : List Char → List Char × List Char
  | [] => ([], [])
  | c :: rest =>
      if digitClass c then
        let (ds, r) := spanDigits rest
        (c :: ds, r)
      else ([], c :: rest)

/-- Continuation that accepts any rest: after the capture and `post`, the
regex need not reach the end of the input. -/
def anyRest : List Char → Option Unit := fun _ => some ()

/-- Match the capture `(\d+(?:\.\d+)?)` at the head of `cs`, then `post`;
returns the captured integer and fraction digit strings.  The optional
fraction is taken greedily and dropped again if `post` cannot match after
it, as the backtracking engine does. -/
def capNum (post : Pat) (cs : List Char) : Option (List Char × List Char) :=
  match spanDigits cs with
  | ([], _) => none
  | (ds, r1) =>
      match r1 with
      | '.' :: r2 =>
          match spanDigits r2 with
          | ([], _) => if (matchP post r1 anyRest).isSome then some (ds, []) else none
          | (fs, r3) =>
              if (matchP post r3 anyRest).isSome then some (ds, fs)
              else if (matchP post r1 anyRest).isSome then some (ds, [])
              else none
      | _ => if (matchP post r1 anyRest).isSome then some (ds, []) else none

/-- Unanchored search: try the pattern at every start position, leftmost
first, as `String.prototype.match` does. -/
def searchCap (cp : CapPattern) : List Char → Option (List Char × List Char)
  | [] => matchP cp.pre [] fun r1 => capNum cp.post r1
  | c :: cs =>
      match matchP cp.pre (c :: cs) fun r1 => capNum cp.post r1 with
      | some r => some r
      | none => searchCap cp cs

/-- The `for (const pattern of patterns)` loop: first pattern that
matches wins. -/
def firstCapture (s : String) : Option (List Char × List Char) :=
  match searchCap amountPattern1 s.data with
  | some r => some r
  | none =>
      match searchCap amountPattern2 s.data with
      | some r => some r
      | none =>
          match searchCap amountPattern3 s.data with
          | some r => some r
          | none =>
              match searchCap amountPattern4 s.data with
              | some r => some r
              | none => searchCap amountPattern5 s.data

/-- Numeric value of one digit. -/
def digitVal (c : Char) : Nat := c.toNat - '0'.toNat

/-- Numeric value of a digit string. -/
def digitsToNat (ds : List Char) : Nat :=
  ds.foldl (fun acc c => acc * 10 + digitVal c) 0

/-- Exact value of the captured decimal numeral (`parseFloat` idealized
to the exact decimal it denotes). -/
def capValue (ds fs : List Char) : ℚ :=
  (digitsToNat ds : ℚ) + (digitsToNat fs : ℚ) / (10 : ℚ) ^ fs.length

/-- Lowercased character data of a string (`toLowerCase()`, ASCII). -/
def lowerData (s : String) : List Char := s.data.map asciiLower

/-- Operation `haystack.includes(needle)` on character lists. -/
def containsSeq (needle : List Char) : List Char → Bool
  | [] => needle.isEmpty
  | c :: cs => needle.isPrefixOf (c :: cs) || containsSeq needle cs

/-- The check `input.toLowerCase().includes('usd') || input.toLowerCase().includes('dollar')`. -/
def includesUsdOrDollar (s : String) : Bool :=
  containsSeq "usd".data (lowerData s) || containsSeq "dollar".data (lowerData s)

/-- Floor of a rational, computably. -/
def ratFloor (q : ℚ) : Int := q.num.fdiv (q.den : Int)

/-- Rounding to the nearest integer, half towards the larger integer, as
`toFixed` specifies on exact values. -/
def roundHalfUp (q : ℚ) : Int := ratFloor (q + 1 / 2)

/-- Formatting `x.toFixed(6)` for a non-negative value, idealized to exact
arithmetic: six digits after the decimal point, zero-padded. -/
def toFixed6 (q : ℚ) : String :=
  let n := (roundHalfUp (q * 1000000)).toNat
  let fs := Nat.repr (n % 1000000)
  Nat.repr (n / 1000000) ++ "." ++
    (String.mk (List.replicate (6 - fs.length) '0') ++ fs)

/-- Canonical decimal rendering of the captured numeral: leading zeros of
the integer part and trailing zeros of the fraction dropped (the
idealization of `parseFloat(m).toString()`). -/
def canonNumString (ds fs : List Char) : String :=
  let ip :=
    match ds.dropWhile (fun c => c == '0') with
    | [] => ['0']
    | r => r
  let fp := (fs.reverse.dropWhile (fun c => c == '0')).reverse
  if fp.isEmpty then String.mk ip
  else String.mk ip ++ "." ++ String.mk fp

/-- Function `parseAmountFromInput` of src/index.ts: first matching pattern's
capture; USD/USDC amounts converted at 2000 USD/ETH and formatted with
`toFixed(6)`; plain amounts echoed back; otherwise a thrown error. -/
def parseAmountFromInput (input : String) : Except String String :=
  match firstCapture input with
  | some (ds, fs) =>
      if includesUsdOrDollar input then
        Except.ok (toFixed6 (capValue ds fs / 2000))
      else
        Except.ok (canonNumString ds fs)
  | none =>
      Except.error ("Could not parse amount from: " ++ input ++
        ". Please specify the amount clearly (e.g., 0.1 ETH or 100 USDC worth of ETH).")

/-- Spec-side case-insensitive containment: the lowercased input has `w`
as a contiguous substring. -/
def ContainsCI (s : String) (w : List Char) : Prop :=
  ∃ p q : List Char, lowerData s = p ++ w ++ q

/-! ## Model of the chat endpoint handler (src/index.ts, handleChatRequest) -/

/-- The JSON body fields the handler reads; absent fields are `none`.
Values are modelled as strings (`some ""` is present but empty). -/
structure ReqBody where
  message : Option String
  text : Option String
  content : Option String
  query : Option String
  sessionId : Option String
  session_id : Option String
  userId : Option String
  user_id : Option String
  id : Option String

/-- JavaScript truthiness of a string-valued field: `undefined` and the
empty string are falsy. -/
def falsy : Option String → Bool
  | none => true
  | some s => s.isEmpty

/-- JavaScript `a || b` on string-valued fields. -/
def jsOr (a b : Option String) : Option String :=
  if falsy a then b else a

/-- Fallback chain `message = message || req.body.text || req.body.content || req.body.query`. -/
def extractMessage (body : ReqBody) : Option String :=
  jsOr (jsOr (jsOr body.message body.text) body.content) body.query

/-- Fallback chain `sessionId = sessionId || session_id || userId || user_id || id || 'default-session'`. -/
def extractSessionId (body : ReqBody) : Option String :=
  jsOr (jsOr (jsOr (jsOr (jsOr body.sessionId body.session_id) body.userId)
    body.user_id) body.id) (some "default-session")

/-- The HTTP responses the handler can produce. -/
inductive ChatResp where
  | badRequest : ChatResp
  | unavailable : ChatResp
  | ok : String → ChatResp
  | serverError : ChatResp
deriving DecidableEq, Repr

/-- The effective session id: regenerated (`freshId` stands for the
`session-${Date.now()}-${random}` value) when missing or left at the
`'default-session'` fallback. -/
def effectiveSessionId (body : ReqBody) (freshId : String) : String :=
  let sid := extractSessionId body
  if falsy sid || sid == some "default-session" then freshId
  else sid.getD ""

/-- Handler `handleChatRequest` of src/index.ts (`POST /api/chat`, `POST
/api/message`): 400 when no message survives the fallback chain, 503 when
the agent is not initialized, otherwise the agent call's result (500 when
it throws). `invoke` abstracts `agent.handleMessage`. -/
def handleChatRequest (body : ReqBody) (agentReady : Bool) (freshId : String)
    (invoke : String → String → Except Unit String) : ChatResp :=
  let message := extractMessage body
  if falsy message then ChatResp.badRequest
  else
    let sid := effectiveSessionId body freshId
    if agentReady = false then ChatResp.unavailable
    else
      match invoke (message.getD "") sid with
      | Except.ok r => ChatResp.ok r
      | Except.error _ => ChatResp.serverError

/-! ## Model of the per-user agent routing (src/index.ts, handleMessage) -/

/-- The process-local state the routing layer mutates: the per-user agent
store (`agentStore`), the per-user memory store (`memoryStore`), a supply
of fresh agent identities, and the shared-components guard flag.
`sharedInitCount` instruments how many times the initialization body has
actually run. -/
structure AgentSys where
  agentStore : List (String × Nat)
  memoryStore : List (String × Nat)
  nextAgent : Nat
  sharedInit : Bool
  sharedInitCount : Nat

/-- Function `initializeSharedComponents()`: returns immediately when the guard
flag is set, otherwise runs the body once and sets the flag. -/
def initializeSharedComponents (sys : AgentSys) : AgentSys :=
  if sys.sharedInit then sys
  else { sys with sharedInit := true, sharedInitCount := sys.sharedInitCount + 1 }

/-- Iterated calls (`n` of them) to `initializeSharedComponents`. -/
def runInits : Nat → AgentSys → AgentSys
  | 0, sys => sys
  | n + 1, sys => runInits n (initializeSharedComponents sys)

/-- Function `initializeAgent(userId, client)`: throws unless the shared
components are initialized; stores a fresh `MemorySaver` keyed by the
user id and returns a fresh agent. -/
def initializeAgent (userId : String) (sys : AgentSys) : Option (AgentSys × Nat) :=
  if sys.sharedInit then
    some ({ sys with
              memoryStore := (userId, sys.nextAgent) :: sys.memoryStore
              nextAgent := sys.nextAgent + 1 },
          sys.nextAgent)
  else none

/-- Result of one `handleMessage` call: the updated stores, the agent the
message was processed with (`none` when the message was ignored or
initialization failed), and whether a new agent was created. -/
structure HMResult where
  sys : AgentSys
  agentUsed : Option Nat
  created : Bool

/-- Lowercasing `toLowerCase()` (ASCII fragment), as used on the two addresses. -/
def strLower (s : String) : String := String.mk (s.data.map asciiLower)

/-- Handler `handleMessage` of src/index.ts: self-messages are ignored; otherwise
the stored agent for the sender is reused, and only when there is none is
`initializeAgent` called and its agent stored keyed by the sender. -/
def handleMessage (sys : AgentSys) (senderAddress inboxId : String) : HMResult :=
  let botAddress := strLower inboxId
  if strLower senderAddress == botAddress then ⟨sys, none, false⟩
  else
    match sys.agentStore.lookup senderAddress with
    | some agent => ⟨sys, some agent, false⟩
    | none =>
        match initializeAgent senderAddress sys with
        | some (sys1, agent) =>
            ⟨{ sys1 with agentStore := (senderAddress, agent) :: sys1.agentStore },
              some agent, true⟩
        | none => ⟨sys, none, false⟩

/-! # Theorems -/

/-! ## Helper lemmas on the contract operations -/

/-- What a successful `contribute` did, field by field. -/
theorem contribute_some_elim {s v t : Nat} {st st' : CFState}
    (h : contribute s v t st = some st') :
    v ≠ 0 ∧ t < st.deadline ∧
    st'.beneficiary = st.beneficiary ∧ st'.goal = st.goal ∧
    st'.deadline = st.deadline ∧
    st'.totalRaised = st.totalRaised + v ∧
    st'.contributions s = st.contributions s + v ∧
    (∀ a, a ≠ s → st'.contributions a = st.contributions a) ∧
    st'.balance = st.balance + v ∧
    ((st.contributions s = 0 ∧ st'.contributors = st.contributors ++ [s]) ∨
      (st.contributions s ≠ 0 ∧ st'.contributors = st.contributors)) := by
  unfold contribute at h
  by_cases h0 : v = 0
  · simp [h0] at h
  rw [if_neg h0] at h
  by_cases hd : t < st.deadline
  case neg => simp [hd] at h
  rw [if_pos hd] at h
  simp only [] at h
  cases hcc : checkedAdd (st.contributions s) v with
  | none => rw [hcc] at h; simp at h
  | some c =>
    cases hct : checkedAdd st.totalRaised v with
    | none => rw [hcc, hct] at h; simp at h
    | some tt =>
      rw [hcc, hct] at h
      have hcv : c = st.contributions s + v := by
        unfold checkedAdd at hcc
        split at hcc
        · cases hcc; rfl
        · cases hcc
      have htv : tt = st.totalRaised + v := by
        unfold checkedAdd at hct
        split at hct
        · cases hct; rfl
        · cases hct
      by_cases hz : st.contributions s = 0
      · simp only [if_pos hz] at h
        cases h
        refine ⟨h0, hd, rfl, rfl, rfl, htv, by simp [hcv], fun a ha => by simp [ha], rfl,
          Or.inl ⟨hz, rfl⟩⟩
      · simp only [if_neg hz] at h
        cases h
        refine ⟨h0, hd, rfl, rfl, rfl, htv, by simp [hcv], fun a ha => by simp [ha], rfl,
          Or.inr ⟨hz, rfl⟩⟩

/-- Operation `contribute` succeeds when the value is positive, the deadline has not
passed and the checked additions fit. -/
theorem contribute_isSome {s v t : Nat} {st : CFState} (h0 : v ≠ 0)
    (hd : t < st.deadline)
    (hc : st.contributions s + v < UINT256_BOUND)
    (ht : st.totalRaised + v < UINT256_BOUND) :
    ∃ st', contribute s v t st = some st' := by
  unfold contribute checkedAdd
  rw [if_neg h0, if_pos hd]
  simp only [if_pos hc, if_pos ht]
  exact ⟨_, rfl⟩

/-- What a successful `refund` did, field by field (including that it
left `totalRaised` and `contributors` alone). -/
theorem refund_some_elim {s t : Nat} {ok : Bool} {st : CFState} {amt : Nat} {st' : CFState}
    (h : refund s t ok st = some (amt, st')) :
    getFundraiserState t st = FundState.Failed ∧ st.contributions s ≠ 0 ∧ ok = true ∧
    amt = st.contributions s ∧
    st'.contributions s = 0 ∧ (∀ a, a ≠ s → st'.contributions a = st.contributions a) ∧
    st'.beneficiary = st.beneficiary ∧ st'.goal = st.goal ∧ st'.deadline = st.deadline ∧
    st'.totalRaised = st.totalRaised ∧ st'.contributors = st.contributors ∧
    st'.balance = st.balance - amt := by
  unfold refund refundEffects at h
  by_cases hf : getFundraiserState t st = FundState.Failed
  case neg => rw [if_neg hf] at h; simp at h
  rw [if_pos hf] at h
  simp only [] at h
  by_cases hz : st.contributions s = 0
  · rw [if_pos hz] at h; simp at h
  rw [if_neg hz] at h
  cases ok with
  | false => simp at h
  | true =>
      simp only [if_true] at h
      cases h
      exact ⟨hf, hz, rfl, rfl, by simp, fun a ha => by simp [ha], rfl, rfl, rfl, rfl, rfl, rfl⟩

/-- Operation `refund` succeeds when the fundraiser failed, the caller has a
nonzero recorded contribution, and the send succeeds. -/
theorem refund_isSome {s t : Nat} {st : CFState}
    (hf : getFundraiserState t st = FundState.Failed)
    (hz : st.contributions s ≠ 0) :
    ∃ amt st', refund s t true st = some (amt, st') := by
  unfold refund refundEffects
  rw [if_pos hf]
  simp only [if_neg hz]
  exact ⟨_, _, rfl⟩

/-- Operation `refund` reverts unless the fundraiser failed, the caller has a
nonzero recorded contribution, and the send succeeds. -/
theorem refund_none_of_not (s t : Nat) (ok : Bool) (st : CFState)
    (h : ¬(getFundraiserState t st = FundState.Failed ∧ st.contributions s ≠ 0 ∧ ok = true)) :
    refund s t ok st = none := by
  cases hr : refund s t ok st with
  | none => rfl
  | some p =>
      obtain ⟨amt, st'⟩ := p
      obtain ⟨h1, h2, h3, -⟩ := refund_some_elim hr
      exact absurd ⟨h1, h2, h3⟩ h

/-- What a successful `payout` did, field by field. -/
theorem payout_some_elim {t : Nat} {ok : Bool} {st : CFState} {amt : Nat} {st' : CFState}
    (h : payout t ok st = some (amt, st')) :
    getFundraiserState t st = FundState.Succeeded ∧ ok = true ∧ amt = st.balance ∧
    st'.balance = 0 ∧ st'.beneficiary = st.beneficiary ∧ st'.goal = st.goal ∧
    st'.deadline = st.deadline ∧ st'.totalRaised = st.totalRaised ∧
    st'.contributors = st.contributors ∧ st'.contributions = st.contributions := by
  unfold payout at h
  by_cases hs : getFundraiserState t st = FundState.Succeeded
  case neg => rw [if_neg hs] at h; simp at h
  rw [if_pos hs] at h
  cases ok with
  | false => simp at h
  | true =>
      simp only [if_true] at h
      cases h
      exact ⟨hs, rfl, rfl, Nat.sub_self _, rfl, rfl, rfl, rfl, rfl, rfl⟩

/-- Operation `payout` succeeds whenever the fundraiser succeeded and the send
succeeds. -/
theorem payout_isSome {t : Nat} {st : CFState}
    (hs : getFundraiserState t st = FundState.Succeeded) :
    ∃ amt st', payout t true st = some (amt, st') := by
  unfold payout
  rw [if_pos hs]
  exact ⟨_, _, rfl⟩

/-! ## C1: contribute() -/

/-- C1.  `contribute()` reverts exactly when the sent value is zero or the
time is at or past the deadline; a successful call with value `v` raises
`totalRaised` and the sender's recorded contribution by exactly `v`, and
appends the sender to `contributors` exactly when their prior recorded
contribution was zero.  (The two bound hypotheses rule out uint256
overflow of the checked additions, which no real ETH amount can reach.) -/
theorem contribute_spec (sender value now : Nat) (st : CFState)
    (hc : st.contributions sender + value < UINT256_BOUND)
    (ht : st.totalRaised + value < UINT256_BOUND) :
    (contribute sender value now st = none ↔ (value = 0 ∨ st.deadline ≤ now)) ∧
    (∀ st', contribute sender value now st = some st' →
      st'.totalRaised = st.totalRaised + value ∧
      st'.contributions sender = st.contributions sender + value ∧
      (st'.contributors = st.contributors ++ [sender] ↔ st.contributions sender = 0)) := by
  constructor
  · constructor
    · intro hnone
      by_contra hcon
      push_neg at hcon
      obtain ⟨h0, hd⟩ := hcon
      obtain ⟨st', hsome⟩ := contribute_isSome h0 hd hc ht
      rw [hnone] at hsome
      exact absurd hsome (by simp)
    · intro h
      rcases h with h0 | hd
      · simp [contribute, h0]
      · have : ¬ now < st.deadline := Nat.not_lt.mpr hd
        by_cases h0 : value = 0
        · simp [contribute, h0]
        · simp [contribute, h0, this]
  · intro st' hsome
    obtain ⟨-, -, -, -, -, htot, hcons, -, -, hlist⟩ := contribute_some_elim hsome
    refine ⟨htot, hcons, ?_⟩
    rcases hlist with ⟨hz, hl⟩ | ⟨hz, hl⟩
    · exact ⟨fun _ => hz, fun _ => hl⟩
    · constructor
      · intro happ
        rw [hl] at happ
        exact absurd (congrArg List.length happ) (by simp)
      · intro h
        exact absurd h hz

/-- C1, witnessed on a deployed instance: a 5-wei contribution at time 3
against a goal-100 fundraiser deployed at time 0 with duration 10. -/
theorem contribute_spec_witness :
    ∃ st', contribute 2 5 3 (deploy 1 100 10 0) = some st' ∧
      st'.totalRaised = 5 ∧ st'.contributions 2 = 5 ∧ st'.contributors = [2] := by
  obtain ⟨hiff, hsucc⟩ := contribute_spec 2 5 3 (deploy 1 100 10 0) (by decide) (by decide)
  cases hx : contribute 2 5 3 (deploy 1 100 10 0) with
  | none =>
      rcases hiff.mp hx with h | h
      · exact absurd h (by decide)
      · exact absurd h (by decide)
  | some st' =>
      obtain ⟨h1, h2, h3⟩ := hsucc st' hx
      refine ⟨st', rfl, by simpa using h1, by simpa using h2, ?_⟩
      have := h3.mpr (by decide)
      simpa using this

/-! ## C2: getFundraiserState() -/

/-- C2.  `getFundraiserState()` returns `Ongoing` exactly when the time is
strictly before the deadline; at or after the deadline it returns
`Succeeded` exactly when `totalRaised >= goal`, `Failed` otherwise, and
never `Ongoing`. -/
theorem getFundraiserState_spec (now : Nat) (st : CFState) :
    (getFundraiserState now st = FundState.Ongoing ↔ now < st.deadline) ∧
    (st.deadline ≤ now →
      (getFundraiserState now st = FundState.Succeeded ↔ st.goal ≤ st.totalRaised) ∧
      (getFundraiserState now st = FundState.Failed ↔ st.totalRaised < st.goal) ∧
      getFundraiserState now st ≠ FundState.Ongoing) := by
  unfold getFundraiserState
  constructor
  · by_cases hd : now < st.deadline
    · simp [hd]
    · by_cases hg : st.goal ≤ st.totalRaised <;> simp [hd, hg]
  · intro hle
    have hd : ¬ now < st.deadline := Nat.not_lt.mpr hle
    by_cases hg : st.goal ≤ st.totalRaised
    · rw [if_neg hd, if_pos hg]
      exact ⟨by simp [hg], by simp; omega, by simp⟩
    · rw [if_neg hd, if_neg hg]
      exact ⟨by simp; omega, by simp; omega, by simp⟩

/-- C2, witnessed: before the deadline the state is `Ongoing`; at the
deadline with the goal unmet it is `Failed` and not `Ongoing`. -/
theorem getFundraiserState_spec_witness :
    getFundraiserState 3 (deploy 1 100 10 0) = FundState.Ongoing ∧
    getFundraiserState 10 (deploy 1 100 10 0) = FundState.Failed := by
  constructor
  · exact (getFundraiserState_spec 3 (deploy 1 100 10 0)).1.mpr (by decide)
  · exact ((getFundraiserState_spec 10 (deploy 1 100 10 0)).2 (by decide)).2.1.mpr (by decide)

/-- Reading `Succeeded` back: the deadline has passed and the goal is met. -/
theorem succeeded_elim {now : Nat} {st : CFState}
    (h : getFundraiserState now st = FundState.Succeeded) :
    ¬ now < st.deadline ∧ st.goal ≤ st.totalRaised := by
  unfold getFundraiserState at h
  by_cases hd : now < st.deadline
  · rw [if_pos hd] at h; cases h
  · by_cases hg : st.goal ≤ st.totalRaised
    · exact ⟨hd, hg⟩
    · rw [if_neg hd, if_neg hg] at h; cases h

/-- Reading `Failed` back: the deadline has passed and the goal is unmet. -/
theorem failed_elim {now : Nat} {st : CFState}
    (h : getFundraiserState now st = FundState.Failed) :
    ¬ now < st.deadline ∧ ¬ st.goal ≤ st.totalRaised := by
  unfold getFundraiserState at h
  by_cases hd : now < st.deadline
  · rw [if_pos hd] at h; cases h
  · by_cases hg : st.goal ≤ st.totalRaised
    · rw [if_neg hd, if_pos hg] at h; cases h
    · exact ⟨hd, hg⟩

/-- What the effects stage of `refund` does before the external call. -/
theorem refundEffects_some_elim {s t : Nat} {st : CFState} {amt : Nat} {st1 : CFState}
    (h : refundEffects s t st = some (amt, st1)) :
    amt = st.contributions s ∧ st1.contributions s = 0 ∧ st1.balance = st.balance := by
  unfold refundEffects at h
  by_cases hf : getFundraiserState t st = FundState.Failed
  case neg => rw [if_neg hf] at h; simp at h
  rw [if_pos hf] at h
  simp only [] at h
  by_cases hz : st.contributions s = 0
  · rw [if_pos hz] at h; simp at h
  · rw [if_neg hz] at h
    cases h
    exact ⟨rfl, by simp, rfl⟩

/-! ## C3: refund() -/

/-- C3.  `refund()` succeeds exactly when the fundraiser failed, the
caller's recorded contribution is nonzero and the low-level send
succeeds; on success the caller is sent exactly the recorded amount and
their entry becomes zero — and it is already zero in the intermediate
state `refundEffects` passes to the external call (checks-effects-
interactions); a second `refund()` by the same caller then reverts. -/
theorem refund_spec (sender now : Nat) (sendOk : Bool) (st : CFState) :
    ((refund sender now sendOk st).isSome = true ↔
      (getFundraiserState now st = FundState.Failed ∧
        st.contributions sender ≠ 0 ∧ sendOk = true)) ∧
    (∀ amt st1, refundEffects sender now st = some (amt, st1) →
      amt = st.contributions sender ∧ st1.contributions sender = 0) ∧
    (∀ amt st', refund sender now sendOk st = some (amt, st') →
      amt = st.contributions sender ∧ st'.contributions sender = 0 ∧
      st'.balance = st.balance - amt ∧
      ∀ now2 : Nat, ∀ ok2 : Bool, refund sender now2 ok2 st' = none) := by
  refine ⟨⟨?_, ?_⟩, ?_, ?_⟩
  · intro hsome
    rw [Option.isSome_iff_exists] at hsome
    obtain ⟨⟨amt, st'⟩, h⟩ := hsome
    obtain ⟨h1, h2, h3, -⟩ := refund_some_elim h
    exact ⟨h1, h2, h3⟩
  · rintro ⟨hf, hz, rfl⟩
    obtain ⟨amt, st', h⟩ := refund_isSome hf hz
    rw [h]
    rfl
  · intro amt st1 h
    obtain ⟨h1, h2, -⟩ := refundEffects_some_elim h
    exact ⟨h1, h2⟩
  · intro amt st' h
    obtain ⟨-, -, -, hamt, hzero, -, -, -, -, -, -, hbal⟩ := refund_some_elim h
    refine ⟨hamt, hzero, hbal, fun now2 ok2 => ?_⟩
    refine refund_none_of_not sender now2 ok2 st' ?_
    rintro ⟨-, hnz, -⟩
    exact hnz hzero

/-- C3, witnessed: after contributing 5 before the deadline of a goal-100
fundraiser, the contributor can refund once the deadline has passed with
the goal unmet, and a second refund reverts. -/
theorem refund_spec_witness :
    (refund 2 20 true
        ((contribute 2 5 3 (deploy 1 100 10 0)).getD (deploy 1 100 10 0))).isSome = true := by
  exact (refund_spec 2 20 true _).1.mpr ⟨by decide, by decide, rfl⟩

/-! ## C4: payout() -/

/-- C4.  `payout()` succeeds exactly when the fundraiser state is
`Succeeded` and the low-level call succeeds (anyone may call it); on
success it sends the entire contract balance to the beneficiary, leaving
balance zero, and a later call at or after the deadline succeeds again,
sending zero rather than reverting. -/
theorem payout_spec (now : Nat) (sendOk : Bool) (st : CFState) :
    ((payout now sendOk st).isSome = true ↔
      (getFundraiserState now st = FundState.Succeeded ∧ sendOk = true)) ∧
    (∀ amt st', payout now sendOk st = some (amt, st') →
      amt = st.balance ∧ st'.balance = 0 ∧
      ∀ now2 : Nat, st.deadline ≤ now2 → ∃ st2, payout now2 true st' = some (0, st2)) := by
  constructor
  · constructor
    · intro hsome
      rw [Option.isSome_iff_exists] at hsome
      obtain ⟨⟨amt, st'⟩, h⟩ := hsome
      obtain ⟨h1, h2, -⟩ := payout_some_elim h
      exact ⟨h1, h2⟩
    · rintro ⟨hs, rfl⟩
      obtain ⟨amt, st', h⟩ := payout_isSome hs
      rw [h]
      rfl
  · intro amt st' h
    obtain ⟨hs, -, hamt, hbal, -, hgoal, hdl, htot, -, -⟩ := payout_some_elim h
    refine ⟨hamt, hbal, fun now2 hle => ?_⟩
    obtain ⟨-, hg⟩ := succeeded_elim hs
    have hs2 : getFundraiserState now2 st' = FundState.Succeeded := by
      unfold getFundraiserState
      rw [if_neg (by rw [hdl]; exact Nat.not_lt.mpr hle)]
      rw [if_pos (by rw [hgoal, htot]; exact hg)]
    obtain ⟨amt2, st2, h2⟩ := payout_isSome hs2
    obtain ⟨-, -, hamt2, -⟩ := payout_some_elim h2
    rw [hamt2, hbal] at h2
    exact ⟨st2, h2⟩

/-- C4, witnessed: once the goal is met and the deadline passed, `payout`
succeeds and empties the balance. -/
theorem payout_spec_witness :
    (payout 20 true
        ((contribute 2 100 3 (deploy 1 100 10 0)).getD (deploy 1 100 10 0))).isSome = true := by
  exact (payout_spec 20 true _).1.mpr ⟨by decide, rfl⟩

/-! ## C5: contributors has no duplicates -/

/-- The invariant only gets easier at later times. -/
theorem contribInv_mono {t t' : Nat} {st : CFState}
    (h : ContribInv t st) (hle : t ≤ t') : ContribInv t' st :=
  ⟨h.1, fun a ha hz => le_trans (h.2 a ha hz) hle⟩

/-- A successful `contribute` preserves the invariant. -/
theorem contribute_pres {s v t : Nat} {st st' : CFState}
    (hinv : ContribInv t st) (hx : contribute s v t st = some st') :
    ContribInv t st' := by
  obtain ⟨hnd, hzero⟩ := hinv
  obtain ⟨h0, hd, -, -, hdl, -, hcs, hother, -, hlist⟩ := contribute_some_elim hx
  rcases hlist with ⟨hz, hl⟩ | ⟨hz, hl⟩
  · constructor
    · rw [hl]
      have hnot : s ∉ st.contributors := fun hmem =>
        absurd (hzero s hmem hz) (by omega)
      simp [List.nodup_append, hnd, hnot]
    · intro a ha h0a
      rw [hdl]
      rw [hl] at ha
      by_cases has : a = s
      · subst has
        rw [hcs, hz] at h0a
        simp at h0a
        exact absurd h0a h0
      · rw [hother a has] at h0a
        have hmem : a ∈ st.contributors := by
          rcases List.mem_append.mp ha with h | h
          · exact h
          · simp at h
            exact absurd h has
        exact hzero a hmem h0a
  · constructor
    · rw [hl]
      exact hnd
    · intro a ha h0a
      rw [hdl]
      rw [hl] at ha
      by_cases has : a = s
      · subst has
        rw [hcs] at h0a
        omega
      · rw [hother a has] at h0a
        exact hzero a ha h0a

/-- A successful `refund` preserves the invariant (it zeroes an entry,
but only once the deadline has passed). -/
theorem refund_pres {s t : Nat} {ok : Bool} {st : CFState} {amt : Nat} {st' : CFState}
    (hinv : ContribInv t st) (hx : refund s t ok st = some (amt, st')) :
    ContribInv t st' := by
  obtain ⟨hnd, hzero⟩ := hinv
  obtain ⟨hf, -, -, -, -, hother, -, -, hdl, -, hlist, -⟩ := refund_some_elim hx
  obtain ⟨hdt, -⟩ := failed_elim hf
  constructor
  · rw [hlist]
    exact hnd
  · intro a ha h0a
    rw [hdl]
    by_cases has : a = s
    · omega
    · rw [hother a has] at h0a
      rw [hlist] at ha
      exact hzero a ha h0a

/-- One transaction preserves the invariant. -/
theorem stepOp_pres (t : Nat) (op : CFOp) (st : CFState)
    (hinv : ContribInv t st) : ContribInv t (stepOp t op st) := by
  cases op with
  | contributeOp s v =>
      dsimp only [stepOp]
      cases hx : contribute s v t st with
      | none => exact hinv
      | some st' => exact contribute_pres hinv hx
  | receiveOp s v =>
      dsimp only [stepOp]
      cases hx : receiveEther s v t st with
      | none => exact hinv
      | some st' =>
          unfold receiveEther at hx
          exact contribute_pres hinv hx
  | refundOp s ok =>
      dsimp only [stepOp]
      cases hx : refund s t ok st with
      | none => exact hinv
      | some p =>
          obtain ⟨amt, st'⟩ := p
          exact refund_pres hinv hx
  | payoutOp ok =>
      dsimp only [stepOp]
      cases hx : payout t ok st with
      | none => exact hinv
      | some p =>
          obtain ⟨amt, st'⟩ := p
          obtain ⟨-, -, -, -, hben, hgoal, hdl, htot, hlist, hcontr⟩ := payout_some_elim hx
          refine ⟨by rw [hlist]; exact hinv.1, fun a ha h0a => ?_⟩
          rw [hlist] at ha
          rw [hcontr] at h0a
          rw [hdl]
          exact hinv.2 a ha h0a

/-- The invariant holds after any monotone-time transaction sequence. -/
theorem execOps_inv (ops : List (Nat × CFOp)) (t0 : Nat) (st : CFState)
    (hinv : ContribInv t0 st) (hmono : timeMono t0 ops = true) :
    (execOps st ops).contributors.Nodup := by
  induction ops generalizing t0 st with
  | nil => exact hinv.1
  | cons head rest ih =>
      obtain ⟨t, op⟩ := head
      unfold timeMono at hmono
      rw [Bool.and_eq_true, decide_eq_true_eq] at hmono
      obtain ⟨h1, h2⟩ := hmono
      exact ih t (stepOp t op st) (stepOp_pres t op st (contribInv_mono hinv h1)) h2

/-- C5.  Starting from a freshly deployed contract, no sequence of
transactions with non-decreasing block timestamps ever puts a duplicate
address into `contributors` — even when a refund zeroes a recorded
contribution, because refunds only happen at or after the deadline, when
no further `contribute` can succeed. -/
theorem contributors_nodup_spec (beneficiary goal duration t0 : Nat)
    (ops : List (Nat × CFOp)) (hmono : timeMono t0 ops = true) :
    (execOps (deploy beneficiary goal duration t0) ops).contributors.Nodup := by
  refine execOps_inv ops t0 _ ⟨List.nodup_nil, ?_⟩ hmono
  intro a ha
  simp [deploy] at ha

/-- C5, witnessed: contribute, refund after the deadline, then a payout
attempt — the contributor list stays duplicate-free. -/
theorem contributors_nodup_spec_witness :
    (execOps (deploy 1 100 10 0)
      [(3, CFOp.contributeOp 2 5), (20, CFOp.refundOp 2 true),
        (25, CFOp.payoutOp true)]).contributors.Nodup :=
  contributors_nodup_spec 1 100 10 0
    [(3, CFOp.contributeOp 2 5), (20, CFOp.refundOp 2 true), (25, CFOp.payoutOp true)]
    (by decide)

/-! ## C6: totalRaised is monotone; refund's frame -/

/-- One transaction never decreases `totalRaised`. -/
theorem stepOp_totalRaised_mono (t : Nat) (op : CFOp) (st : CFState) :
    st.totalRaised ≤ (stepOp t op st).totalRaised := by
  cases op with
  | contributeOp s v =>
      dsimp only [stepOp]
      cases hx : contribute s v t st with
      | none => exact le_refl _
      | some st' =>
          rw [(contribute_some_elim hx).2.2.2.2.2.1]
          exact Nat.le_add_right _ _
  | receiveOp s v =>
      dsimp only [stepOp]
      cases hx : receiveEther s v t st with
      | none => exact le_refl _
      | some st' =>
          unfold receiveEther at hx
          rw [(contribute_some_elim hx).2.2.2.2.2.1]
          exact Nat.le_add_right _ _
  | refundOp s ok =>
      dsimp only [stepOp]
      cases hx : refund s t ok st with
      | none => exact le_refl _
      | some p =>
          obtain ⟨amt, st'⟩ := p
          rw [(refund_some_elim hx).2.2.2.2.2.2.2.2.2.1]
  | payoutOp ok =>
      dsimp only [stepOp]
      cases hx : payout t ok st with
      | none => exact le_refl _
      | some p =>
          obtain ⟨amt, st'⟩ := p
          rw [(payout_some_elim hx).2.2.2.2.2.2.2.1]

/-- C6.  `totalRaised` never decreases over any transaction sequence; and
`refund` leaves `totalRaised`, `goal`, `deadline`, `beneficiary` and
`contributors` unchanged — it only zeroes the caller's contributions
entry and sends the recorded amount out of the balance. -/
theorem totalRaised_monotone_refund_frame :
    (∀ (st : CFState) (ops : List (Nat × CFOp)),
      st.totalRaised ≤ (execOps st ops).totalRaised) ∧
    (∀ (sender now : Nat) (sendOk : Bool) (st : CFState) (amt : Nat) (st' : CFState),
      refund sender now sendOk st = some (amt, st') →
      st'.totalRaised = st.totalRaised ∧ st'.goal = st.goal ∧
      st'.deadline = st.deadline ∧ st'.beneficiary = st.beneficiary ∧
      st'.contributors = st.contributors ∧
      amt = st.contributions sender ∧ st'.contributions sender = 0 ∧
      (∀ a, a ≠ sender → st'.contributions a = st.contributions a) ∧
      st'.balance = st.balance - amt) := by
  constructor
  · intro st ops
    induction ops generalizing st with
    | nil => exact le_refl _
    | cons head rest ih =>
        obtain ⟨t, op⟩ := head
        exact le_trans (stepOp_totalRaised_mono t op st) (ih (stepOp t op st))
  · intro sender now sendOk st amt st' h
    obtain ⟨-, -, -, hamt, hzero, hother, hben, hgoal, hdl, htot, hlist, hbal⟩ :=
      refund_some_elim h
    exact ⟨htot, hgoal, hdl, hben, hlist, hamt, hzero, hother, hbal⟩

/-- C6, witnessed: a concrete refund leaves `totalRaised` and the
contributor list untouched while zeroing the caller's entry. -/
theorem totalRaised_monotone_refund_frame_witness :
    (deploy 1 100 10 0).totalRaised ≤
      (execOps (deploy 1 100 10 0) [(3, CFOp.contributeOp 2 5)]).totalRaised :=
  totalRaised_monotone_refund_frame.1 (deploy 1 100 10 0) [(3, CFOp.contributeOp 2 5)]

/-! ## C7: the address / transaction-hash validators -/

/-- Stripping a literal succeeds exactly on an extension of it. -/
theorem stripLit_some (w : List Char) : ∀ cs rest, stripLit w cs = some rest → cs = w ++ rest := by
  induction w with
  | nil =>
      intro cs rest h
      simp [stripLit] at h
      simp [h]
  | cons a ws ih =>
      intro cs rest h
      cases cs with
      | nil => simp [stripLit] at h
      | cons c cs1 =>
          simp only [stripLit] at h
          by_cases hc : c = a
          · rw [if_pos hc] at h
            rw [hc, List.cons_append]
            exact congrArg (List.cons a) (ih cs1 rest h)
          · rw [if_neg hc] at h
            cases h

/-- Stripping a literal off itself-plus-tail yields the tail. -/
theorem stripLit_append (w t : List Char) : stripLit w (w ++ t) = some t := by
  induction w with
  | nil => rfl
  | cons a ws ih => simp [stripLit, ih]

/-- Exact `{n}`-repetition of a class, anchored at the end of the input,
accepts exactly the strings of length `n` all of whose characters are in
the class. -/
theorem matchRepn_end (p : Char → Bool) : ∀ (n : Nat) (cs : List Char),
    (matchRepn p n cs endAnchor).isSome = true ↔
      (cs.length = n ∧ ∀ c ∈ cs, p c = true) := by
  intro n
  induction n with
  | zero =>
      intro cs
      cases cs with
      | nil => simp [matchRepn, endAnchor]
      | cons c cs1 => simp [matchRepn, endAnchor]
  | succ n ih =>
      intro cs
      cases cs with
      | nil => simp [matchRepn]
      | cons c cs1 =>
          by_cases hp : p c
          · simp [matchRepn, hp, ih cs1]
          · simp [matchRepn, hp]

/-- An anchored `lit`-then-`{n}`-class pattern accepts exactly the
literal followed by `n` class characters. -/
theorem seqLitRepn_isSome (w : List Char) (p : Char → Bool) (n : Nat) (cs : List Char) :
    (matchP (Pat.seq (Pat.lit w) (Pat.repn p n)) cs endAnchor).isSome = true ↔
      ∃ t, cs = w ++ t ∧ t.length = n ∧ ∀ c ∈ t, p c = true := by
  simp only [matchP]
  cases hs : stripLit w cs with
  | none =>
      simp only [Option.isSome_none]
      constructor
      · intro h
        cases h
      · rintro ⟨t, rfl, -, -⟩
        rw [stripLit_append] at hs
        cases hs
  | some rest =>
      rw [matchRepn_end]
      constructor
      · rintro ⟨hlen, hall⟩
        exact ⟨rest, stripLit_some w cs rest hs, hlen, hall⟩
      · rintro ⟨t, rfl, hlen, hall⟩
        rw [stripLit_append] at hs
        cases hs
        exact ⟨hlen, hall⟩

/-- The regex character class and the spec-side hex predicate agree. -/
theorem hexClass_iff (c : Char) : hexClass c = true ↔ IsHexChar c := by
  unfold hexClass IsHexChar
  simp only [Bool.or_eq_true, Bool.and_eq_true, decide_eq_true_eq]
  tauto

/-- C7.  `isValidAddress` accepts exactly `0x` followed by exactly 40 hex
characters, and `isValidTxHash` exactly `0x` followed by exactly 64 hex
characters; every other string (wrong length, missing prefix, non-hex
character) is rejected. -/
theorem validators_spec (s : String) :
    (isValidAddress s = true ↔ WellFormedHexString s 40) ∧
    (isValidTxHash s = true ↔ WellFormedHexString s 64) := by
  constructor
  · unfold isValidAddress regexTestFull addrPattern
    rw [seqLitRepn_isSome]
    unfold WellFormedHexString
    refine exists_congr fun t => and_congr ?_ (and_congr Iff.rfl ?_)
    · constructor
      · intro h
        rw [h]
        rfl
      · intro h
        rw [h]
        rfl
    · exact ⟨fun h c hc => (hexClass_iff c).mp (h c hc),
        fun h c hc => (hexClass_iff c).mpr (h c hc)⟩
  · unfold isValidTxHash regexTestFull txHashPattern
    rw [seqLitRepn_isSome]
    unfold WellFormedHexString
    refine exists_congr fun t => and_congr ?_ (and_congr Iff.rfl ?_)
    · constructor
      · intro h
        rw [h]
        rfl
      · intro h
        rw [h]
        rfl
    · exact ⟨fun h c hc => (hexClass_iff c).mp (h c hc),
        fun h c hc => (hexClass_iff c).mpr (h c hc)⟩

/-- C7, witnessed: a well-formed 40-hex-character address is accepted and
a 63-hex-character string is not a well-formed transaction hash. -/
theorem validators_spec_witness :
    isValidAddress "0x51b4e01311bc4f4cf1b1c6bbd1a0976a6e4b2f3a" = true ∧
    isValidTxHash "0x123" = false := by
  constructor
  · refine (validators_spec "0x51b4e01311bc4f4cf1b1c6bbd1a0976a6e4b2f3a").1.mpr ?_
    exact ⟨"51b4e01311bc4f4cf1b1c6bbd1a0976a6e4b2f3a".data, by decide, by decide, by decide⟩
  · by_contra h
    rw [Bool.not_eq_false] at h
    obtain ⟨t, ht, hlen, -⟩ := (validators_spec "0x123").2.mp h
    have : t.length = 3 := by
      have := congrArg List.length ht
      simp at this
      omega
    omega

/-! ## C9: parseAmountFromInput -/

/-- Boolean `includes` on character lists agrees with the spec-side substring
decomposition. -/
theorem containsSeq_iff (needle : List Char) : ∀ l : List Char,
    containsSeq needle l = true ↔ ∃ p q, l = p ++ needle ++ q := by
  intro l
  induction l with
  | nil =>
      simp only [containsSeq, List.isEmpty_iff]
      constructor
      · intro h
        exact ⟨[], [], by simp [h]⟩
      · rintro ⟨p, q, hpq⟩
        have hlen := congrArg List.length hpq
        simp only [List.length_nil, List.length_append] at hlen
        have hn : needle.length = 0 := by omega
        exact List.eq_nil_of_length_eq_zero hn
  | cons c cs ih =>
      simp only [containsSeq, Bool.or_eq_true, ih]
      constructor
      · rintro (hpre | ⟨p, q, rfl⟩)
        · rw [List.isPrefixOf_iff_prefix] at hpre
          obtain ⟨q, hq⟩ := hpre
          exact ⟨[], q, by simp [hq]⟩
        · exact ⟨c :: p, q, by simp⟩
      · rintro ⟨p, q, hpq⟩
        cases p with
        | nil =>
            left
            rw [List.isPrefixOf_iff_prefix]
            exact ⟨q, by simpa using hpq.symm⟩
        | cons a p1 =>
            right
            simp only [List.cons_append, List.cons.injEq] at hpq
            exact ⟨p1, q, hpq.2⟩

/-- C9 (amended).  When some amount pattern matches, the parsed amount is
the first matching pattern's capture; if the input contains `usd` or
`dollar` case-insensitively the result is that amount divided by the
hard-coded 2000 USD/ETH rate, formatted to six decimal places — even when
the capture came from the plain-ETH pattern; otherwise the captured
number is echoed back; when no pattern matches, the function throws. -/
theorem parseAmountFromInput_spec (s : String) (ds fs : List Char) :
    (firstCapture s = some (ds, fs) →
      ((ContainsCI s "usd".data ∨ ContainsCI s "dollar".data) →
        parseAmountFromInput s = Except.ok (toFixed6 (capValue ds fs / 2000))) ∧
      (¬(ContainsCI s "usd".data ∨ ContainsCI s "dollar".data) →
        parseAmountFromInput s = Except.ok (canonNumString ds fs))) ∧
    (firstCapture s = none →
      parseAmountFromInput s = Except.error ("Could not parse amount from: " ++ s ++
        ". Please specify the amount clearly (e.g., 0.1 ETH or 100 USDC worth of ETH).")) := by
  have hb : includesUsdOrDollar s = true ↔
      (ContainsCI s "usd".data ∨ ContainsCI s "dollar".data) := by
    unfold includesUsdOrDollar ContainsCI
    rw [Bool.or_eq_true, containsSeq_iff, containsSeq_iff]
  constructor
  · intro hcap
    constructor
    · intro hus
      unfold parseAmountFromInput
      rw [hcap]
      dsimp only
      rw [if_pos (hb.mpr hus)]
    · intro hus
      unfold parseAmountFromInput
      rw [hcap]
      dsimp only
      rw [if_neg (fun hh => hus (hb.mp hh))]
  · intro hnone
    unfold parseAmountFromInput
    rw [hnone]

/-- C9, witnessed end to end: `"100 usd worth of eth"` is parsed by the
first pattern and converted at 2000 USD/ETH to `"0.050000"`. -/
theorem parseAmountFromInput_spec_witness :
    parseAmountFromInput "100 usd worth of eth" = Except.ok "0.050000" := by
  have h := (parseAmountFromInput_spec "100 usd worth of eth" ['1', '0', '0'] []).1 (by decide)
  have h2 := h.1 (Or.inl ⟨['1', '0', '0', ' '], " worth of eth".data, by decide⟩)
  rw [h2]
  have h3 : toFixed6 (capValue ['1', '0', '0'] [] / 2000) = "0.050000" := by
    unfold capValue
    rw [(by decide : digitsToNat ['1', '0', '0'] = 100),
      (by decide : digitsToNat ([] : List Char) = 0)]
    norm_num [toFixed6, roundHalfUp, ratFloor]
    decide
  rw [h3]

/-- C9, counterexample to the claim as stated: `"1 eth of usd"` matches
the plain ETH pattern with capture `1`, yet the function returns the
converted `"0.000500"`, not `"1"`, because the input also contains
`usd`. -/
theorem parseAmountFromInput_counterexample :
    searchCap amountPattern2 ("1 eth of usd").data = some (['1'], []) ∧
    parseAmountFromInput "1 eth of usd" = Except.ok "0.000500" ∧
    ("0.000500" : String) ≠ "1" := by
  refine ⟨by decide, ?_, by decide⟩
  unfold parseAmountFromInput
  rw [(by decide : firstCapture "1 eth of usd" = some (['1'], []))]
  dsimp only
  rw [if_pos (by decide : includesUsdOrDollar "1 eth of usd" = true)]
  have h3 : toFixed6 (capValue ['1'] [] / 2000) = "0.000500" := by
    unfold capValue
    rw [(by decide : digitsToNat ['1'] = 1),
      (by decide : digitsToNat ([] : List Char) = 0)]
    norm_num [toFixed6, roundHalfUp, ratFloor]
    decide
  rw [h3]

/-! ## C10: the chat endpoint handler -/

/-- A `||`-fallback is falsy exactly when both sides are. -/
theorem falsy_jsOr (a b : Option String) :
    falsy (jsOr a b) = true ↔ (falsy a = true ∧ falsy b = true) := by
  unfold jsOr
  by_cases h : falsy a = true
  · rw [if_pos h]
    simp [h]
  · rw [if_neg h]
    simp [h]

/-- A falsy field falls through its `||`-fallback. -/
theorem jsOr_of_falsy (a b : Option String) (h : falsy a = true) : jsOr a b = b :=
  if_pos h

/-- C10 (amended).  The handler responds 400 exactly when the message is
absent or empty under all four accepted field names; the session fields
never cause rejection — when they are all absent or empty the session id
is regenerated — and with a message present the handler returns 503 while
the agent is not ready, the agent's reply on success, and 500 when the
agent call throws. -/
theorem handleChatRequest_spec (body : ReqBody) (agentReady : Bool) (freshId : String)
    (invoke : String → String → Except Unit String) :
    (handleChatRequest body agentReady freshId invoke = ChatResp.badRequest ↔
      (falsy body.message = true ∧ falsy body.text = true ∧
        falsy body.content = true ∧ falsy body.query = true)) ∧
    (falsy body.sessionId = true → falsy body.session_id = true →
      falsy body.userId = true → falsy body.user_id = true → falsy body.id = true →
      effectiveSessionId body freshId = freshId) ∧
    (¬(falsy body.message = true ∧ falsy body.text = true ∧
        falsy body.content = true ∧ falsy body.query = true) →
      (agentReady = false →
        handleChatRequest body agentReady freshId invoke = ChatResp.unavailable) ∧
      (agentReady = true →
        (∀ r, invoke ((extractMessage body).getD "") (effectiveSessionId body freshId) =
            Except.ok r →
          handleChatRequest body agentReady freshId invoke = ChatResp.ok r) ∧
        (∀ e, invoke ((extractMessage body).getD "") (effectiveSessionId body freshId) =
            Except.error e →
          handleChatRequest body agentReady freshId invoke = ChatResp.serverError))) := by
  have hchain : falsy (extractMessage body) = true ↔
      (falsy body.message = true ∧ falsy body.text = true ∧
        falsy body.content = true ∧ falsy body.query = true) := by
    unfold extractMessage
    rw [falsy_jsOr, falsy_jsOr, falsy_jsOr]
    tauto
  refine ⟨?_, ?_, ?_⟩
  · unfold handleChatRequest
    by_cases hm : falsy (extractMessage body) = true
    · rw [if_pos hm]
      simp only [true_iff]
      exact hchain.mp hm
    · rw [if_neg hm]
      constructor
      · intro h
        by_cases hr : agentReady = false
        · rw [if_pos hr] at h
          cases h
        · rw [if_neg hr] at h
          cases hi : invoke ((extractMessage body).getD "") (effectiveSessionId body freshId) with
          | ok r => rw [hi] at h; cases h
          | error e => rw [hi] at h; cases h
      · intro h
        exact absurd (hchain.mpr h) hm
  · intro h1 h2 h3 h4 h5
    unfold effectiveSessionId extractSessionId
    rw [jsOr_of_falsy _ _ ((falsy_jsOr _ _).mpr
      ⟨(falsy_jsOr _ _).mpr ⟨(falsy_jsOr _ _).mpr ⟨(falsy_jsOr _ _).mpr ⟨h1, h2⟩, h3⟩, h4⟩, h5⟩)]
    rw [if_pos (by simp)]
  · intro hnot
    have hm : ¬ falsy (extractMessage body) = true := fun hh => hnot (hchain.mp hh)
    constructor
    · intro hr
      unfold handleChatRequest
      rw [if_neg hm, if_pos hr]
    · intro hr
      have hr' : ¬ agentReady = false := by simp [hr]
      constructor
      · intro r hi
        unfold handleChatRequest
        rw [if_neg hm, if_neg hr', hi]
      · intro e hi
        unfold handleChatRequest
        rw [if_neg hm, if_neg hr', hi]

/-- C10, counterexample to the claim as stated: a request whose `message`
field is present but the empty string is still rejected with 400, so "only
when the message is absent" is not literally true. -/
theorem handleChatRequest_counterexample :
    handleChatRequest ⟨some "", none, none, none, none, none, none, none, none⟩ true
        "session-fresh" (fun _ _ => Except.ok "reply") = ChatResp.badRequest ∧
    (⟨some "", none, none, none, none, none, none, none, none⟩ : ReqBody).message ≠ none := by
  exact ⟨rfl, by simp⟩

/-! ## C8: per-user agent creation and reuse -/

/-- Once the guard flag is set, further initialization calls change
nothing. -/
theorem runInits_of_init (n : Nat) : ∀ sys : AgentSys, sys.sharedInit = true →
    runInits n sys = sys := by
  induction n with
  | zero => intro sys h; rfl
  | succ n ih =>
      intro sys h
      unfold runInits initializeSharedComponents
      rw [if_pos h]
      exact ih sys h

/-- C8.  For a message that is not from the agent itself: when no agent
is stored for the sender a fresh one is created, used and stored keyed by
the sender id; when one is stored it is reused and nothing changes; and
the shared components are initialized at most once per process however
often the guarded initializer runs. -/
theorem handleMessage_spec (sys : AgentSys) (sender inboxId : String)
    (hself : (strLower sender == strLower inboxId) = false)
    (hinit : sys.sharedInit = true) :
    (sys.agentStore.lookup sender = none →
      (handleMessage sys sender inboxId).created = true ∧
      (handleMessage sys sender inboxId).agentUsed = some sys.nextAgent ∧
      (handleMessage sys sender inboxId).sys.agentStore.lookup sender = some sys.nextAgent) ∧
    (∀ a, sys.agentStore.lookup sender = some a →
      handleMessage sys sender inboxId = ⟨sys, some a, false⟩) ∧
    (∀ (n : Nat) (sys0 : AgentSys), sys0.sharedInit = false → sys0.sharedInitCount = 0 →
      (runInits n sys0).sharedInitCount ≤ 1) := by
  have hns : ¬ (strLower sender == strLower inboxId) = true := by simp [hself]
  refine ⟨?_, ?_, ?_⟩
  · intro hnone
    unfold handleMessage initializeAgent
    rw [if_neg hns, hnone, if_pos hinit]
    refine ⟨rfl, rfl, ?_⟩
    simp [List.lookup]
  · intro a ha
    unfold handleMessage
    rw [if_neg hns, ha]
  · intro n sys0 hflag hcount
    cases n with
    | zero => simp [runInits, hcount]
    | succ n =>
        unfold runInits initializeSharedComponents
        rw [if_neg (by simp [hflag])]
        rw [runInits_of_init n _ rfl]
        simp [hcount]

/-- C8, witnessed: a first message from a fresh sender creates and stores
agent 0; the count of shared initializations never exceeds one. -/
theorem handleMessage_spec_witness :
    (handleMessage ⟨[], [], 0, true, 1⟩ "alice" "bot").created = true ∧
    (handleMessage ⟨[], [], 0, true, 1⟩ "alice" "bot").sys.agentStore.lookup "alice" = some 0 ∧
    (runInits 3 ⟨[], [], 0, false, 0⟩).sharedInitCount ≤ 1 := by
  obtain ⟨h1, h2, h3⟩ := handleMessage_spec ⟨[], [], 0, true, 1⟩ "alice" "bot" (by decide) rfl
  obtain ⟨hc, hu, hl⟩ := h1 rfl
  exact ⟨hc, hl, h3 3 ⟨[], [], 0, false, 0⟩ rfl rfl⟩
